import Mathlib

/-!
Verification development for `Sports2DUnityBridge.py`: a TCP fan-out bridge
that broadcasts JSON-encoded frame records from a producer to a set of
connected consumers.

The embedding models:
* Python values reachable from frame records (`PyVal`), including
  numpy-array-like objects exposing `tolist` (`NpArr`) and opaque,
  non-serializable objects (`PyVal.pyobj`);
* `Sports2DUnityBridge._convert_numpy_to_list` (recursive normalization);
* `json.dumps` (`dumps`), which fails (raising `TypeError`, modelled as
  `Option.none`) on values with no JSON representation;
* the bridge state (`BridgeState`: client list, closed-client log, server
  socket flag) and the methods `send_data`, `close`, `start`, each returning
  the new state together with a trace of observable events (log lines,
  lock operations, socket writes);
* the lifecycle coordinator `process_with_unity` as an event trace
  parameterized over the producer outcome.

Numbers are modelled as integers; byte strings are modelled as `String`
(UTF-8 text). Network effects are modelled by the per-client `received`
transcript and the `alive` flag: `sendall` to a dead client raises
`socket.error`.
-/

/-- A numpy-style array: a nested numeric buffer exposing `tolist`. -/
inductive NpArr where
  | scalar (n : Int)
  | arr (xs : List NpArr)

/-- A Python value as can appear in a frame record handed to `send_data`. -/
inductive PyVal where
  | int (n : Int)
  | str (s : String)
  | bool (b : Bool)
  | none
  | list (xs : List PyVal)
  | dict (kvs : List (String × PyVal))
  | nparray (a : NpArr)
  | pyobj (name : String)

mutual

/-- Model of `numpy.ndarray.tolist`: converts the buffer to plain nested lists of numbers. -/
def NpArr.tolist : NpArr → PyVal
  | NpArr.scalar n => PyVal.int n
  | NpArr.arr xs => PyVal.list (NpArr.tolistList xs)

def NpArr.tolistList : List NpArr → List PyVal
  | [] => []
  | x :: xs => NpArr.tolist x :: NpArr.tolistList xs

end

mutual

/-- Model of `Sports2DUnityBridge._convert_numpy_to_list` (lines 46-55): walks lists and
dicts depth-first; any object with a `tolist` attribute is replaced by
`item.tolist()`; all other leaves are returned unchanged. -/
def _convert_numpy_to_list : PyVal → PyVal
  | PyVal.list xs => PyVal.list (convertList xs)
  | PyVal.dict kvs => PyVal.dict (convertDict kvs)
  | PyVal.nparray a => NpArr.tolist a
  | v => v

def convertList : List PyVal → List PyVal
  | [] => []
  | x :: xs => _convert_numpy_to_list x :: convertList xs

def convertDict : List (String × PyVal) → List (String × PyVal)
  | [] => []
  | (k, v) :: kvs => (k, _convert_numpy_to_list v) :: convertDict kvs

end

/-- Lower-case hex digit, used for JSON control-character escapes. -/
def hexDigit (n : Nat) : Char :=
  if n < 10 then Char.ofNat (48 + n) else Char.ofNat (87 + n)

/-- JSON string escaping of a single character, as performed by `json.dumps`. -/
def escapeChar (c : Char) : String :=
  if c = '"' then "\\\""
  else if c = '\\' then "\\\\"
  else if c = '\n' then "\\n"
  else if c = '\t' then "\\t"
  else if c = '\r' then "\\r"
  else if c.toNat < 32 then
    "\\u00" ++ String.singleton (hexDigit (c.toNat / 16)) ++
      String.singleton (hexDigit (c.toNat % 16))
  else String.singleton c

def escapeList : List Char → String
  | [] => ""
  | c :: cs => escapeChar c ++ escapeList cs

/-- JSON string-body escaping as performed by `json.dumps`. -/
def escapeString (s : String) : String := escapeList s.data

/-- Decimal digits of `n` (empty for 0); the first argument is structural fuel,
always instantiated to a number at least as large as `n`. -/
def natDigitsAux : Nat → Nat → List Char
  | 0, _ => []
  | fuel + 1, n =>
    if n = 0 then []
    else natDigitsAux fuel (n / 10) ++ [Char.ofNat (48 + n % 10)]

/-- Decimal rendering of a natural number, as `json.dumps` prints it. -/
def natToString (n : Nat) : String :=
  if n = 0 then "0" else String.mk (natDigitsAux n n)

/-- Decimal rendering of an integer, as `json.dumps` prints it. -/
def intToString (i : Int) : String :=
  if i < 0 then "-" ++ natToString i.natAbs else natToString i.toNat

mutual

/-- Model of `json.dumps` with default separators: produces the JSON text of a value,
or fails (Python raises `TypeError`) when the value has no JSON
representation (a numpy array or any other non-plain object). -/
def dumps : PyVal → Option String
  | PyVal.int n => some (intToString n)
  | PyVal.str s => some ("\"" ++ escapeString s ++ "\"")
  | PyVal.bool b => some (if b then "true" else "false")
  | PyVal.none => some "null"
  | PyVal.list xs => (dumpsList xs).map (fun body => "[" ++ body ++ "]")
  | PyVal.dict kvs => (dumpsDict kvs).map (fun body => "\x7b" ++ body ++ "\x7d")
  | PyVal.nparray _ => Option.none
  | PyVal.pyobj _ => Option.none

def dumpsList : List PyVal → Option String
  | [] => some ""
  | [x] => dumps x
  | x :: xs =>
    match dumps x, dumpsList xs with
    | some s, some rest => some (s ++ ", " ++ rest)
    | _, _ => Option.none

def dumpsDict : List (String × PyVal) → Option String
  | [] => some ""
  | [(k, v)] => (dumps v).map (fun s => "\"" ++ escapeString k ++ "\": " ++ s)
  | (k, v) :: kvs =>
    match dumps v, dumpsDict kvs with
    | some s, some rest => some ("\"" ++ escapeString k ++ "\": " ++ s ++ ", " ++ rest)
    | _, _ => Option.none

end

/-- One accepted Unity client connection. `alive` tells whether `sendall` on
its socket succeeds (a disconnected client raises `socket.error`); `received`
is the transcript of payloads successfully written to it. -/
structure Client where
  id : Nat
  alive : Bool
  received : List String
deriving DecidableEq

/-- Observable events of a bridge method call: log lines, lock operations and
socket operations, in program order. `sendFail cid` is the `socket.error`
raised by `sendall`; `handlerError cid` is the `OSError` raised by
`client.getpeername()` while building the warning message inside the
`except socket.error` handler; `uncaughtException` marks that an exception
propagated out of the method to its caller. -/
inductive Event where
  | normalized
  | encoded
  | encodeFailed
  | lockAcquire
  | lockRelease
  | sendOk (cid : Nat)
  | sendFail (cid : Nat)
  | handlerError (cid : Nat)
  | closedClient (cid : Nat)
  | uncaughtException
  | accepted (cid : Nat)
  | acceptError
  | bound
  | bindFailed
  | serverClosed
deriving DecidableEq

/-- State of a `Sports2DUnityBridge` object: the `self.clients` list, the set
of client ids whose sockets have been closed by the bridge, and whether the
server socket is still open. -/
structure BridgeState where
  clients : List Client
  closed : List Nat
  serverOpen : Bool
deriving DecidableEq

/-- The `for client in list(self.clients)` loop body of `send_data`
(lines 72-83): writes the payload to each client of the snapshot in order.
When `sendall` raises `socket.error` (a disconnected client), the handler at
line 76 first evaluates the f-string of its warning, which calls
`client.getpeername()` on that same disconnected socket; that call raises
`OSError`, which no clause of this `try` catches (an exception raised inside
an `except` clause is not handled by its siblings). So `self.clients.remove`
and `client.close()` are never reached, the loop aborts, and the exception
unwinds out of the loop. Returns the client list as left by the loop (alive
prefix written to, everything from the first dead client on untouched), the
events, and whether an exception is unwinding. -/
def sendLoop (payload : String) : List Client → List Client × List Event × Bool
  | [] => ([], [], false)
  | c :: rest =>
    if c.alive then
      let r := sendLoop payload rest
      ({ c with received := c.received ++ [payload] } :: r.1,
        Event.sendOk c.id :: r.2.1, r.2.2)
    else
      (c :: rest, [Event.sendFail c.id, Event.handlerError c.id], true)

/-- Model of `Sports2DUnityBridge.send_data` (lines 57-83): returns early if no client
is connected; otherwise normalizes the record, serializes it with a trailing
newline (dropping the record on `TypeError`), and writes the encoded payload
to each client in turn while holding `self.lock`. On the first client whose
write fails, the `except socket.error` handler itself raises (`getpeername`
on the dead socket, see `sendLoop`), so the loop aborts: the failing client
is neither removed nor closed, later clients receive nothing, the `with`
statement releases the lock during unwinding, and the exception escapes
`send_data` (`Event.uncaughtException`). -/
def send_data (d : PyVal) (st : BridgeState) : BridgeState × List Event :=
  if st.clients.isEmpty then (st, [])
  else
    let data_to_send := _convert_numpy_to_list d
    match dumps data_to_send with
    | Option.none => (st, [Event.normalized, Event.encodeFailed])
    | Option.some s =>
      let payload := s ++ "\n"
      let r := sendLoop payload st.clients
      ({ st with clients := r.1 },
        Event.normalized :: Event.encoded :: Event.lockAcquire ::
          (r.2.1 ++ [Event.lockRelease] ++
            (if r.2.2 then [Event.uncaughtException] else [])))

/-- Model of `Sports2DUnityBridge.close` (lines 86-104): under `self.lock`, for each
client tries `shutdown` then `close`, swallowing errors: on a live socket
both succeed and the socket is closed; on a dead socket `shutdown` raises
`socket.error`, the `except ... pass` catches it and `client.close()` on the
next line is skipped, so no close happens for that client. The list is then
cleared and the server socket closed (errors swallowed). Total: every
exception is caught, so `close` never raises. -/
def close (st : BridgeState) : BridgeState × List Event :=
  ({ clients := [],
     closed := st.closed ++ (st.clients.filter (fun c => c.alive)).map Client.id,
     serverOpen := false },
    Event.lockAcquire ::
      ((st.clients.filter (fun c => c.alive)).map (fun c => Event.closedClient c.id) ++
        [Event.lockRelease, Event.serverClosed]))

/-- The `while True` accept loop of `start` (lines 33-44): each element of
`incoming` is either an accepted connection (`some c`, appended to
`self.clients` under the lock) or a socket error on the listening socket
(`Option.none`), which breaks the loop. An exhausted list models the loop
still blocked in `accept`. -/
def acceptLoop : List (Option Client) → BridgeState → BridgeState × List Event
  | [], st => (st, [])
  | Option.some c :: rest, st =>
    let r := acceptLoop rest { st with clients := st.clients ++ [c] }
    (r.1, Event.accepted c.id :: Event.lockAcquire :: Event.lockRelease :: r.2)
  | Option.none :: _, st => (st, [Event.acceptError])

/-- Model of `Sports2DUnityBridge.start` (lines 24-44): tries to bind and listen
(`bindOk` tells whether that succeeds); on `socket.error` it logs the failure
and returns at once, so the accept loop never runs. On success it runs the
accept loop over the incoming connection attempts. -/
def start (bindOk : Bool) (incoming : List (Option Client)) (st : BridgeState) :
    BridgeState × List Event :=
  if bindOk then
    let r := acceptLoop incoming st
    (r.1, Event.bound :: r.2)
  else (st, [Event.bindFailed])

/-- How the `Sports2D.process` producer thread run ends, as observed by
`process_with_unity`: normal completion of the thread, `KeyboardInterrupt`
in the waiting loop, or another exception. -/
inductive Outcome where
  | completed
  | interrupted
  | failed
deriving DecidableEq

/-- Observable events of the lifecycle coordinator `process_with_unity`. -/
inductive LifeEvent where
  | producerStarted
  | interruptLogged
  | producerErrorLogged
  | closeCalled
  | joinGrace (seconds : Nat)
  | joinWarning
  | finished
deriving DecidableEq

/-- Model of `process_with_unity` (lines 140-166), control-flow skeleton: start the
producer thread and wait for it inside `try`; on `KeyboardInterrupt` or any
other exception, log it; in `finally`, call `bridge.close()`, and if the
producer thread is still alive join it with a 5-second timeout, warning (but
proceeding) if it still has not terminated. `aliveAtCleanup` models whether
the thread is still alive when the `finally` block runs (necessarily false
when the wait loop ended by normal completion); `exitsInGrace` models whether
the bounded join sees the thread terminate. -/
def process_with_unity (outcome : Outcome) (aliveAtCleanup exitsInGrace : Bool) :
    List LifeEvent :=
  let tryEvents :=
    LifeEvent.producerStarted ::
      (match outcome with
       | Outcome.completed => []
       | Outcome.interrupted => [LifeEvent.interruptLogged]
       | Outcome.failed => [LifeEvent.producerErrorLogged])
  let alive :=
    match outcome with
    | Outcome.completed => false
    | _ => aliveAtCleanup
  let cleanupEvents :=
    LifeEvent.closeCalled ::
      ((if alive then
          LifeEvent.joinGrace 5 ::
            (if exitsInGrace then [] else [LifeEvent.joinWarning])
        else []) ++ [LifeEvent.finished])
  tryEvents ++ cleanupEvents

mutual

/-- Does the value contain a leaf with no JSON representation (a live object
such as a socket or function, modelled by `PyVal.pyobj`)? -/
def containsPyObj : PyVal → Bool
  | PyVal.pyobj _ => true
  | PyVal.list xs => containsPyObjList xs
  | PyVal.dict kvs => containsPyObjDict kvs
  | _ => false

def containsPyObjList : List PyVal → Bool
  | [] => false
  | x :: xs => containsPyObj x || containsPyObjList xs

def containsPyObjDict : List (String × PyVal) → Bool
  | [] => false
  | (_, v) :: kvs => containsPyObj v || containsPyObjDict kvs

end

mutual

/-- Is the value plain: built only from numbers, strings, booleans, `None`
and nestings of plain lists and dicts (no array-like buffer, no live
object)? -/
def isPlain : PyVal → Bool
  | PyVal.int _ => true
  | PyVal.str _ => true
  | PyVal.bool _ => true
  | PyVal.none => true
  | PyVal.list xs => isPlainList xs
  | PyVal.dict kvs => isPlainDict kvs
  | PyVal.nparray _ => false
  | PyVal.pyobj _ => false

def isPlainList : List PyVal → Bool
  | [] => true
  | x :: xs => isPlain x && isPlainList xs

def isPlainDict : List (String × PyVal) → Bool
  | [] => true
  | (_, v) :: kvs => isPlain v && isPlainDict kvs

end

mutual

/-- Parses a plain nested numeric sequence back into an array-like buffer;
used to state that `tolist` loses neither the values nor the shape of the
buffer. -/
def ofPlain : PyVal → Option NpArr
  | PyVal.int n => some (NpArr.scalar n)
  | PyVal.list xs => (ofPlainList xs).map NpArr.arr
  | _ => Option.none

def ofPlainList : List PyVal → Option (List NpArr)
  | [] => some []
  | x :: xs =>
    match ofPlain x, ofPlainList xs with
    | some a, some rest => some (a :: rest)
    | _, _ => Option.none

end

/-- Number of newline characters in a string. -/
def newlineCount (s : String) : Nat := s.data.countP (fun c => c == '\n')

/-- Checks that every socket write event (`sendOk`/`sendFail`) in the trace
happens at exactly lock depth `target`; `d` is the lock depth at the start of
the trace. -/
def sendsAtDepth (target : Nat) : List Event → Nat → Bool
  | [], _ => true
  | Event.lockAcquire :: tr, d => sendsAtDepth target tr (d + 1)
  | Event.lockRelease :: tr, d => sendsAtDepth target tr (d - 1)
  | Event.sendOk _ :: tr, d => (d == target) && sendsAtDepth target tr d
  | Event.sendFail _ :: tr, d => (d == target) && sendsAtDepth target tr d
  | _ :: tr, d => sendsAtDepth target tr d

/-- Lock depth after executing the trace, starting from depth `d`. -/
def depthAfter : List Event → Nat → Nat
  | [], d => d
  | Event.lockAcquire :: tr, d => depthAfter tr (d + 1)
  | Event.lockRelease :: tr, d => depthAfter tr (d - 1)
  | _ :: tr, d => depthAfter tr d

/-- Number of lock acquisitions in a trace. -/
def countLockAcquires (tr : List Event) : Nat :=
  tr.countP (fun e => e == Event.lockAcquire)

/-- Payloads that a sequence of `send_data` calls successfully encodes:
one JSON text plus newline delimiter per record that serializes. -/
def payloadsOf (recs : List PyVal) : List String :=
  recs.filterMap (fun r => (dumps (_convert_numpy_to_list r)).map (fun s => s ++ "\n"))

/-- Final bridge state after a sequence of `send_data` calls. -/
def runSends (recs : List PyVal) (st : BridgeState) : BridgeState :=
  recs.foldl (fun s r => (send_data r s).1) st

theorem newlineCount_append (a b : String) :
    newlineCount (a ++ b) = newlineCount a + newlineCount b := by
  simp [newlineCount, String.data_append, List.countP_append]

theorem newlineCount_singleton_ne (c : Char) (h : c ≠ '\n') :
    newlineCount (String.singleton c) = 0 := by
  simp [newlineCount, String.singleton, List.countP_cons, h]

theorem hexDigit_ne_newline : ∀ m : Fin 16, hexDigit m.val ≠ '\n' := by decide

theorem newlineCount_escapeChar (c : Char) : newlineCount (escapeChar c) = 0 := by
  unfold escapeChar
  split_ifs with h1 h2 h3 h4 h5 h6
  · decide
  · decide
  · decide
  · decide
  · decide
  · rw [newlineCount_append, newlineCount_append]
    have d1 : c.toNat / 16 < 16 := by omega
    have d2 : c.toNat % 16 < 16 := by omega
    rw [newlineCount_singleton_ne _ (hexDigit_ne_newline ⟨c.toNat / 16, d1⟩)]
    rw [newlineCount_singleton_ne _ (hexDigit_ne_newline ⟨c.toNat % 16, d2⟩)]
    decide
  · exact newlineCount_singleton_ne c h3

theorem newlineCount_escapeList (l : List Char) : newlineCount (escapeList l) = 0 := by
  induction l with
  | nil => decide
  | cons c cs ih =>
    show newlineCount (escapeChar c ++ escapeList cs) = 0
    rw [newlineCount_append, newlineCount_escapeChar, ih]

theorem newlineCount_escapeString (s : String) : newlineCount (escapeString s) = 0 :=
  newlineCount_escapeList s.data

theorem digitChar_ne_newline : ∀ d : Fin 10, Char.ofNat (48 + d.val) ≠ '\n' := by decide

theorem natDigitsAux_no_newline (fuel : Nat) :
    ∀ n, (natDigitsAux fuel n).countP (fun c => c == '\n') = 0 := by
  induction fuel with
  | zero => intro n; simp [natDigitsAux]
  | succ f ih =>
    intro n
    by_cases h : n = 0
    · simp [natDigitsAux, h]
    · have hd : Char.ofNat (48 + n % 10) ≠ '\n' :=
        digitChar_ne_newline ⟨n % 10, by omega⟩
      simp [natDigitsAux, h, List.countP_append, List.countP_cons, ih, hd]

theorem newlineCount_natToString (n : Nat) : newlineCount (natToString n) = 0 := by
  unfold natToString
  split_ifs with h
  · decide
  · show (natDigitsAux n n).countP (fun c => c == '\n') = 0
    exact natDigitsAux_no_newline n n

theorem newlineCount_intToString (i : Int) : newlineCount (intToString i) = 0 := by
  unfold intToString
  split_ifs with h
  · rw [newlineCount_append, newlineCount_natToString]
    decide
  · exact newlineCount_natToString i.toNat

mutual

theorem dumps_no_newline : ∀ (v : PyVal) (s : String), dumps v = some s → newlineCount s = 0
  | PyVal.int n, s, h => by
    simp only [dumps, Option.some.injEq] at h
    exact h ▸ newlineCount_intToString n
  | PyVal.str t, s, h => by
    simp only [dumps, Option.some.injEq] at h
    rw [← h, newlineCount_append, newlineCount_append, newlineCount_escapeString]
    decide
  | PyVal.bool b, s, h => by
    cases b <;> simp only [dumps, Option.some.injEq] at h <;> rw [← h] <;> decide
  | PyVal.none, s, h => by
    simp only [dumps, Option.some.injEq] at h
    rw [← h]; decide
  | PyVal.list xs, s, h => by
    simp only [dumps] at h
    cases hx : dumpsList xs with
    | none => rw [hx] at h; simp at h
    | some body =>
      rw [hx] at h
      simp only [Option.map_some', Option.some.injEq] at h
      rw [← h]
      simp only [newlineCount_append, dumpsList_no_newline xs body hx]
      decide
  | PyVal.dict kvs, s, h => by
    simp only [dumps] at h
    cases hx : dumpsDict kvs with
    | none => rw [hx] at h; simp at h
    | some body =>
      rw [hx] at h
      simp only [Option.map_some', Option.some.injEq] at h
      rw [← h]
      simp only [newlineCount_append, dumpsDict_no_newline kvs body hx]
      decide
  | PyVal.nparray _, s, h => by simp [dumps] at h
  | PyVal.pyobj _, s, h => by simp [dumps] at h

theorem dumpsList_no_newline : ∀ (xs : List PyVal) (s : String),
    dumpsList xs = some s → newlineCount s = 0
  | [], s, h => by
    simp only [dumpsList, Option.some.injEq] at h
    rw [← h]; decide
  | [x], s, h => dumps_no_newline x s h
  | x :: y :: ys, s, h => by
    simp only [dumpsList] at h
    cases hx : dumps x with
    | none => rw [hx] at h; simp at h
    | some s1 =>
      cases hy : dumpsList (y :: ys) with
      | none => rw [hx, hy] at h; simp at h
      | some rest =>
        rw [hx, hy] at h
        simp only [Option.some.injEq] at h
        rw [← h]
        simp only [newlineCount_append, dumps_no_newline x s1 hx,
          dumpsList_no_newline (y :: ys) rest hy]
        decide

theorem dumpsDict_no_newline : ∀ (kvs : List (String × PyVal)) (s : String),
    dumpsDict kvs = some s → newlineCount s = 0
  | [], s, h => by
    simp only [dumpsDict, Option.some.injEq] at h
    rw [← h]; decide
  | [(k, v)], s, h => by
    simp only [dumpsDict] at h
    cases hv : dumps v with
    | none => rw [hv] at h; simp at h
    | some s1 =>
      rw [hv] at h
      simp only [Option.map_some', Option.some.injEq] at h
      rw [← h]
      simp only [newlineCount_append, newlineCount_escapeString,
        dumps_no_newline v s1 hv]
      decide
  | (k, v) :: p :: kvs, s, h => by
    simp only [dumpsDict] at h
    cases hv : dumps v with
    | none => rw [hv] at h; simp at h
    | some s1 =>
      cases hy : dumpsDict (p :: kvs) with
      | none => rw [hv, hy] at h; simp at h
      | some rest =>
        rw [hv, hy] at h
        simp only [Option.some.injEq] at h
        rw [← h]
        simp only [newlineCount_append, newlineCount_escapeString,
          dumps_no_newline v s1 hv, dumpsDict_no_newline (p :: kvs) rest hy]
        decide

end

mutual

theorem convert_of_isPlain : ∀ v : PyVal, isPlain v = true → _convert_numpy_to_list v = v
  | PyVal.int _, _ => rfl
  | PyVal.str _, _ => rfl
  | PyVal.bool _, _ => rfl
  | PyVal.none, _ => rfl
  | PyVal.list xs, h => by
    simp only [isPlain] at h
    simp only [_convert_numpy_to_list, PyVal.list.injEq]
    exact convertList_of_isPlain xs h
  | PyVal.dict kvs, h => by
    simp only [isPlain] at h
    simp only [_convert_numpy_to_list, PyVal.dict.injEq]
    exact convertDict_of_isPlain kvs h
  | PyVal.nparray _, h => by simp [isPlain] at h
  | PyVal.pyobj _, h => by simp [isPlain] at h

theorem convertList_of_isPlain : ∀ xs : List PyVal, isPlainList xs = true → convertList xs = xs
  | [], _ => rfl
  | x :: xs, h => by
    simp only [isPlainList, Bool.and_eq_true] at h
    simp only [convertList, List.cons.injEq]
    exact ⟨convert_of_isPlain x h.1, convertList_of_isPlain xs h.2⟩

theorem convertDict_of_isPlain : ∀ kvs : List (String × PyVal),
    isPlainDict kvs = true → convertDict kvs = kvs
  | [], _ => rfl
  | (k, v) :: kvs, h => by
    simp only [isPlainDict, Bool.and_eq_true] at h
    simp only [convertDict, List.cons.injEq, Prod.mk.injEq]
    exact ⟨⟨trivial, convert_of_isPlain v h.1⟩, convertDict_of_isPlain kvs h.2⟩

end

mutual

theorem tolist_isPlain : ∀ a : NpArr, isPlain (NpArr.tolist a) = true
  | NpArr.scalar _ => rfl
  | NpArr.arr xs => by
    simp only [NpArr.tolist, isPlain]
    exact tolistList_isPlain xs

theorem tolistList_isPlain : ∀ xs : List NpArr, isPlainList (NpArr.tolistList xs) = true
  | [] => rfl
  | x :: xs => by
    simp only [NpArr.tolistList, isPlainList, Bool.and_eq_true]
    exact ⟨tolist_isPlain x, tolistList_isPlain xs⟩

end

mutual

theorem ofPlain_tolist : ∀ a : NpArr, ofPlain (NpArr.tolist a) = some a
  | NpArr.scalar _ => rfl
  | NpArr.arr xs => by
    simp only [NpArr.tolist, ofPlain, ofPlainList_tolistList xs, Option.map_some']

theorem ofPlainList_tolistList : ∀ xs : List NpArr,
    ofPlainList (NpArr.tolistList xs) = some xs
  | [] => rfl
  | x :: xs => by
    simp only [NpArr.tolistList, ofPlainList, ofPlain_tolist x, ofPlainList_tolistList xs]

end

theorem convert_idem_of_isPlain (v : PyVal) (h : isPlain v = true) :
    _convert_numpy_to_list (_convert_numpy_to_list v) = _convert_numpy_to_list v := by
  rw [convert_of_isPlain v h, convert_of_isPlain v h]

mutual

theorem convert_idem : ∀ v : PyVal,
    _convert_numpy_to_list (_convert_numpy_to_list v) = _convert_numpy_to_list v
  | PyVal.int _ => rfl
  | PyVal.str _ => rfl
  | PyVal.bool _ => rfl
  | PyVal.none => rfl
  | PyVal.list xs => by
    simp only [_convert_numpy_to_list, PyVal.list.injEq]
    exact convertList_idem xs
  | PyVal.dict kvs => by
    simp only [_convert_numpy_to_list, PyVal.dict.injEq]
    exact convertDict_idem kvs
  | PyVal.nparray a => by
    simp only [_convert_numpy_to_list]
    exact convert_of_isPlain (NpArr.tolist a) (tolist_isPlain a)
  | PyVal.pyobj _ => rfl

theorem convertList_idem : ∀ xs : List PyVal, convertList (convertList xs) = convertList xs
  | [] => rfl
  | x :: xs => by
    simp only [convertList, List.cons.injEq]
    exact ⟨convert_idem x, convertList_idem xs⟩

theorem convertDict_idem : ∀ kvs : List (String × PyVal),
    convertDict (convertDict kvs) = convertDict kvs
  | [] => rfl
  | (k, v) :: kvs => by
    simp only [convertDict, List.cons.injEq, Prod.mk.injEq]
    exact ⟨⟨trivial, convert_idem v⟩, convertDict_idem kvs⟩

end

mutual

theorem convert_isPlain_of_no_pyobj : ∀ v : PyVal,
    containsPyObj v = false → isPlain (_convert_numpy_to_list v) = true
  | PyVal.int _, _ => rfl
  | PyVal.str _, _ => rfl
  | PyVal.bool _, _ => rfl
  | PyVal.none, _ => rfl
  | PyVal.list xs, h => by
    simp only [containsPyObj] at h
    simp only [_convert_numpy_to_list, isPlain]
    exact convertList_isPlain_of_no_pyobj xs h
  | PyVal.dict kvs, h => by
    simp only [containsPyObj] at h
    simp only [_convert_numpy_to_list, isPlain]
    exact convertDict_isPlain_of_no_pyobj kvs h
  | PyVal.nparray a, _ => by
    simp only [_convert_numpy_to_list]
    exact tolist_isPlain a
  | PyVal.pyobj _, h => by simp [containsPyObj] at h

theorem convertList_isPlain_of_no_pyobj : ∀ xs : List PyVal,
    containsPyObjList xs = false → isPlainList (convertList xs) = true
  | [], _ => rfl
  | x :: xs, h => by
    simp only [containsPyObjList, Bool.or_eq_false_iff] at h
    simp only [convertList, isPlainList, Bool.and_eq_true]
    exact ⟨convert_isPlain_of_no_pyobj x h.1, convertList_isPlain_of_no_pyobj xs h.2⟩

theorem convertDict_isPlain_of_no_pyobj : ∀ kvs : List (String × PyVal),
    containsPyObjDict kvs = false → isPlainDict (convertDict kvs) = true
  | [], _ => rfl
  | (k, v) :: kvs, h => by
    simp only [containsPyObjDict, Bool.or_eq_false_iff] at h
    simp only [convertDict, isPlainDict, Bool.and_eq_true]
    exact ⟨convert_isPlain_of_no_pyobj v h.1, convertDict_isPlain_of_no_pyobj kvs h.2⟩

end

mutual

theorem convert_containsPyObj : ∀ v : PyVal,
    containsPyObj v = true → containsPyObj (_convert_numpy_to_list v) = true
  | PyVal.int _, h => by simp [containsPyObj] at h
  | PyVal.str _, h => by simp [containsPyObj] at h
  | PyVal.bool _, h => by simp [containsPyObj] at h
  | PyVal.none, h => by simp [containsPyObj] at h
  | PyVal.list xs, h => by
    simp only [containsPyObj] at h
    simp only [_convert_numpy_to_list, containsPyObj]
    exact convertList_containsPyObj xs h
  | PyVal.dict kvs, h => by
    simp only [containsPyObj] at h
    simp only [_convert_numpy_to_list, containsPyObj]
    exact convertDict_containsPyObj kvs h
  | PyVal.nparray _, h => by simp [containsPyObj] at h
  | PyVal.pyobj _, _ => rfl

theorem convertList_containsPyObj : ∀ xs : List PyVal,
    containsPyObjList xs = true → containsPyObjList (convertList xs) = true
  | [], h => by simp [containsPyObjList] at h
  | x :: xs, h => by
    simp only [containsPyObjList, Bool.or_eq_true] at h
    simp only [convertList, containsPyObjList, Bool.or_eq_true]
    cases h with
    | inl h => exact Or.inl (convert_containsPyObj x h)
    | inr h => exact Or.inr (convertList_containsPyObj xs h)

theorem convertDict_containsPyObj : ∀ kvs : List (String × PyVal),
    containsPyObjDict kvs = true → containsPyObjDict (convertDict kvs) = true
  | [], h => by simp [containsPyObjDict] at h
  | (k, v) :: kvs, h => by
    simp only [containsPyObjDict, Bool.or_eq_true] at h
    simp only [convertDict, containsPyObjDict, Bool.or_eq_true]
    cases h with
    | inl h => exact Or.inl (convert_containsPyObj v h)
    | inr h => exact Or.inr (convertDict_containsPyObj kvs h)

end

mutual

theorem dumps_eq_none_of_containsPyObj : ∀ v : PyVal,
    containsPyObj v = true → dumps v = Option.none
  | PyVal.int _, h => by simp [containsPyObj] at h
  | PyVal.str _, h => by simp [containsPyObj] at h
  | PyVal.bool _, h => by simp [containsPyObj] at h
  | PyVal.none, h => by simp [containsPyObj] at h
  | PyVal.list xs, h => by
    simp only [containsPyObj] at h
    simp only [dumps, dumpsList_eq_none_of_containsPyObj xs h, Option.map_none']
  | PyVal.dict kvs, h => by
    simp only [containsPyObj] at h
    simp only [dumps, dumpsDict_eq_none_of_containsPyObj kvs h, Option.map_none']
  | PyVal.nparray _, _ => rfl
  | PyVal.pyobj _, _ => rfl

theorem dumpsList_eq_none_of_containsPyObj : ∀ xs : List PyVal,
    containsPyObjList xs = true → dumpsList xs = Option.none
  | [], h => by simp [containsPyObjList] at h
  | [x], h => by
    simp only [containsPyObjList, Bool.or_eq_true] at h
    have hx : containsPyObj x = true := by
      cases h with
      | inl h => exact h
      | inr h => simp [containsPyObjList] at h
    simp only [dumpsList]
    exact dumps_eq_none_of_containsPyObj x hx
  | x :: y :: ys, h => by
    simp only [containsPyObjList, Bool.or_eq_true] at h
    simp only [dumpsList]
    cases h with
    | inl h => rw [dumps_eq_none_of_containsPyObj x h]
    | inr h =>
      rw [dumpsList_eq_none_of_containsPyObj (y :: ys) (by
        simp only [containsPyObjList, Bool.or_eq_true]
        exact h)]
      cases dumps x <;> rfl

theorem dumpsDict_eq_none_of_containsPyObj : ∀ kvs : List (String × PyVal),
    containsPyObjDict kvs = true → dumpsDict kvs = Option.none
  | [], h => by simp [containsPyObjDict] at h
  | [(k, v)], h => by
    simp only [containsPyObjDict, Bool.or_eq_true] at h
    have hv : containsPyObj v = true := by
      cases h with
      | inl h => exact h
      | inr h => simp [containsPyObjDict] at h
    simp only [dumpsDict]
    rw [dumps_eq_none_of_containsPyObj v hv]
    rfl
  | (k, v) :: p :: kvs, h => by
    simp only [containsPyObjDict, Bool.or_eq_true] at h
    simp only [dumpsDict]
    cases h with
    | inl h => rw [dumps_eq_none_of_containsPyObj v h]
    | inr h =>
      rw [dumpsDict_eq_none_of_containsPyObj (p :: kvs) (by
        simp only [containsPyObjDict, Bool.or_eq_true]
        exact h)]
      cases dumps v <;> rfl

end

theorem sendLoop_all_alive (p : String) (cs : List Client)
    (hall : ∀ c ∈ cs, c.alive = true) :
    sendLoop p cs =
      (cs.map (fun c => { c with received := c.received ++ [p] }),
        cs.map (fun c => Event.sendOk c.id), false) := by
  induction cs with
  | nil => rfl
  | cons c rest ih =>
    have hc : c.alive = true := hall c (List.mem_cons_self c rest)
    have hrest : ∀ c' ∈ rest, c'.alive = true :=
      fun c' h => hall c' (List.mem_cons_of_mem c h)
    simp only [sendLoop, hc, if_true, ih hrest, List.map_cons]

theorem sendLoop_sendsAtDepth (p : String) (cs : List Client) (t : Nat) :
    sendsAtDepth t (sendLoop p cs).2.1 t = true := by
  induction cs with
  | nil => rfl
  | cons d rest ih =>
    by_cases hd : d.alive
    · simp only [sendLoop, hd, if_true, sendsAtDepth, beq_self_eq_true, Bool.true_and]
      exact ih
    · simp [sendLoop, hd, sendsAtDepth]

theorem sendLoop_countLockAcquires (p : String) (cs : List Client) :
    countLockAcquires (sendLoop p cs).2.1 = 0 := by
  induction cs with
  | nil => rfl
  | cons d rest ih =>
    by_cases hd : d.alive
    · simp only [sendLoop, hd, if_true, countLockAcquires, List.countP_cons]
      simpa [countLockAcquires] using ih
    · simp [sendLoop, hd, countLockAcquires, List.countP_cons]

theorem sendLoop_depthAfter (p : String) (cs : List Client) (d : Nat) :
    depthAfter (sendLoop p cs).2.1 d = d := by
  induction cs with
  | nil => rfl
  | cons c rest ih =>
    by_cases hc : c.alive
    · simp only [sendLoop, hc, if_true, depthAfter]
      exact ih
    · simp [sendLoop, hc, depthAfter]

theorem sendsAtDepth_append (t : Nat) (a b : List Event) (d : Nat) :
    sendsAtDepth t (a ++ b) d = (sendsAtDepth t a d && sendsAtDepth t b (depthAfter a d)) := by
  induction a generalizing d with
  | nil => simp [sendsAtDepth, depthAfter]
  | cons e tr ih => cases e <;> simp [sendsAtDepth, depthAfter, ih, Bool.and_assoc]

theorem depthAfter_append (a b : List Event) (d : Nat) :
    depthAfter (a ++ b) d = depthAfter b (depthAfter a d) := by
  induction a generalizing d with
  | nil => simp [depthAfter]
  | cons e tr ih => cases e <;> simp [depthAfter, ih]

theorem send_data_of_empty (d : PyVal) (st : BridgeState) (h : st.clients = []) :
    send_data d st = (st, []) := by
  simp [send_data, h]

theorem send_data_of_dumps_none (d : PyVal) (st : BridgeState)
    (h : dumps (_convert_numpy_to_list d) = Option.none)
    (hne : st.clients.isEmpty = false) :
    send_data d st = (st, [Event.normalized, Event.encodeFailed]) := by
  simp [send_data, hne, h]

theorem send_data_of_dumps_some (d : PyVal) (st : BridgeState) (s : String)
    (h : dumps (_convert_numpy_to_list d) = Option.some s)
    (hne : st.clients.isEmpty = false) :
    send_data d st =
      ({ st with clients := (sendLoop (s ++ "\n") st.clients).1 },
        Event.normalized :: Event.encoded :: Event.lockAcquire ::
          ((sendLoop (s ++ "\n") st.clients).2.1 ++ [Event.lockRelease] ++
            (if (sendLoop (s ++ "\n") st.clients).2.2 then
              [Event.uncaughtException] else []))) := by
  simp [send_data, hne, h]

theorem runSends_cons (r : PyVal) (rs : List PyVal) (st : BridgeState) :
    runSends (r :: rs) st = runSends rs (send_data r st).1 := rfl

theorem isEmpty_false_of_mem {c : Client} {cs : List Client} (hc : c ∈ cs) :
    cs.isEmpty = false := by
  cases cs with
  | nil => cases hc
  | cons a l => rfl

theorem runSends_delivers_all_alive (recs : List PyVal) :
    ∀ (st : BridgeState), (∀ c' ∈ st.clients, c'.alive = true) →
      ∀ c ∈ st.clients,
      ∃ c', c' ∈ (runSends recs st).clients ∧ c'.id = c.id ∧ c'.alive = true ∧
        c'.received = c.received ++ payloadsOf recs := by
  induction recs with
  | nil =>
    intro st hall c hc
    exact ⟨c, hc, rfl, hall c hc, by simp [payloadsOf]⟩
  | cons r rs ih =>
    intro st hall c hc
    have hne : st.clients.isEmpty = false := isEmpty_false_of_mem hc
    cases hdump : dumps (_convert_numpy_to_list r) with
    | none =>
      have hstep : (send_data r st).1 = st := by
        rw [send_data_of_dumps_none r st hdump hne]
      have hpay : payloadsOf (r :: rs) = payloadsOf rs := by
        simp [payloadsOf, hdump]
      rw [runSends_cons, hstep, hpay]
      exact ih st hall c hc
    | some s =>
      have hloop := sendLoop_all_alive (s ++ "\n") st.clients hall
      have hstep : (send_data r st).1.clients =
          st.clients.map (fun c0 => { c0 with received := c0.received ++ [s ++ "\n"] }) := by
        rw [send_data_of_dumps_some r st s hdump hne, hloop]
      have hall' : ∀ c' ∈ (send_data r st).1.clients, c'.alive = true := by
        rw [hstep]
        intro c' hc'
        obtain ⟨c0, hc0, rfl⟩ := List.mem_map.mp hc'
        exact hall c0 hc0
      have hmem' : { c with received := c.received ++ [s ++ "\n"] } ∈
          (send_data r st).1.clients := by
        rw [hstep]
        exact List.mem_map.mpr ⟨c, hc, rfl⟩
      obtain ⟨c', h1, h2, h3, h4⟩ :=
        ih (send_data r st).1 hall' { c with received := c.received ++ [s ++ "\n"] } hmem'
      refine ⟨c', ?_, h2, h3, ?_⟩
      · rw [runSends_cons]; exact h1
      · rw [h4]
        have hpay : payloadsOf (r :: rs) = (s ++ "\n") :: payloadsOf rs := by
          simp [payloadsOf, hdump]
        rw [hpay]
        simp

theorem payloadsOf_delimited (recs : List PyVal) :
    ∀ p ∈ payloadsOf recs, newlineCount p = 1 ∧ ∃ body, p = body ++ "\n" ∧ newlineCount body = 0 := by
  intro p hp
  simp only [payloadsOf, List.mem_filterMap] at hp
  obtain ⟨r, _, hr⟩ := hp
  cases hd : dumps (_convert_numpy_to_list r) with
  | none => rw [hd] at hr; simp at hr
  | some s =>
    rw [hd] at hr
    simp only [Option.map_some', Option.some.injEq] at hr
    have h0 := dumps_no_newline _ s hd
    constructor
    · rw [← hr, newlineCount_append, h0]
      decide
    · exact ⟨s, hr.symm, h0⟩

/-- C1 counterexample: a Registry holding a disconnected consumer (id 1)
ahead of a connected consumer (id 0) satisfies the claim's premise — at
least one consumer is registered, and consumer 0 is a live member — yet
sending the record `5` delivers nothing to consumer 0: `sendall` to
consumer 1 raises `socket.error`, the handler's log f-string calls
`getpeername()` on that dead socket and raises `OSError`, and the write
loop aborts before consumer 0 is reached. The original claim would require
consumer 0's transcript to extend by the encoded payload; no client in the
resulting state satisfies that. -/
theorem send_data_delivery_counterexample :
    (⟨0, true, []⟩ : Client) ∈
      (⟨[⟨1, false, []⟩, ⟨0, true, []⟩], [], true⟩ : BridgeState).clients ∧
    (⟨0, true, []⟩ : Client).alive = true ∧
    ¬ (∃ c', c' ∈ (runSends [PyVal.int 5]
          ⟨[⟨1, false, []⟩, ⟨0, true, []⟩], [], true⟩).clients ∧
        c'.id = (⟨0, true, []⟩ : Client).id ∧ c'.alive = true ∧
        c'.received = (⟨0, true, []⟩ : Client).received ++
          payloadsOf [PyVal.int 5]) := by
  decide

/-- C1 amended: for every sequence of `send_data` calls made while the
Registry contains at least one consumer and every registered consumer is
still connected (no write fails, so the aborting handler path is never
taken), each consumer receives every successfully encoded record, in the
exact order the calls were made (its `received` transcript extends by
exactly the encoded payloads, in call order), and each record's bytes are
terminated by exactly one newline delimiter (payload = JSON text with no
newline, plus one final `"\n"`). -/
theorem send_data_delivers_in_order_when_all_connected (recs : List PyVal)
    (st : BridgeState) (hall : ∀ c' ∈ st.clients, c'.alive = true)
    (c : Client) (hc : c ∈ st.clients) :
    (∃ c', c' ∈ (runSends recs st).clients ∧ c'.id = c.id ∧ c'.alive = true ∧
      c'.received = c.received ++ payloadsOf recs) ∧
    ∀ p ∈ payloadsOf recs, newlineCount p = 1 ∧
      ∃ body, p = body ++ "\n" ∧ newlineCount body = 0 :=
  ⟨runSends_delivers_all_alive recs st hall c hc, payloadsOf_delimited recs⟩

theorem send_data_delivers_in_order_when_all_connected_witness :
    (∀ c' ∈ (⟨[⟨0, true, []⟩], [], true⟩ : BridgeState).clients,
      c'.alive = true) ∧
    (⟨0, true, []⟩ : Client) ∈
      (⟨[⟨0, true, []⟩], [], true⟩ : BridgeState).clients ∧
    ((∃ c', c' ∈ (runSends [PyVal.int 7, PyVal.str "a"]
          ⟨[⟨0, true, []⟩], [], true⟩).clients ∧
        c'.id = (⟨0, true, []⟩ : Client).id ∧ c'.alive = true ∧
        c'.received = (⟨0, true, []⟩ : Client).received ++
          payloadsOf [PyVal.int 7, PyVal.str "a"]) ∧
      ∀ p ∈ payloadsOf [PyVal.int 7, PyVal.str "a"], newlineCount p = 1 ∧
        ∃ body, p = body ++ "\n" ∧ newlineCount body = 0) :=
  ⟨by decide, by decide,
    send_data_delivers_in_order_when_all_connected [PyVal.int 7, PyVal.str "a"]
      ⟨[⟨0, true, []⟩], [], true⟩ (by decide) ⟨0, true, []⟩ (by decide)⟩

/-- C3: a record containing a value with no plain representation (a live
object leaf, `PyVal.pyobj`) survives normalization as non-serializable, so
`json.dumps` raises `TypeError`; `send_data` catches it, reports the failure
(`Event.encodeFailed`, the logged error) and returns with the bridge state
completely unchanged: the record is dropped, no client receives any byte of
it (no `sendOk` event, every `received` transcript unchanged), and no
exception escapes (`send_data` returns normally). The hypothesis
`st.clients ≠ []` puts us past the empty-registry fast path so that encoding
is actually attempted. -/
theorem send_data_drops_unencodable_record (d : PyVal) (st : BridgeState)
    (hbad : containsPyObj d = true) (hne : st.clients ≠ []) :
    send_data d st = (st, [Event.normalized, Event.encodeFailed]) := by
  have h1 : containsPyObj (_convert_numpy_to_list d) = true :=
    convert_containsPyObj d hbad
  have h2 : dumps (_convert_numpy_to_list d) = Option.none :=
    dumps_eq_none_of_containsPyObj _ h1
  have hne' : st.clients.isEmpty = false := by
    cases h : st.clients with
    | nil => exact absurd h hne
    | cons a l => rfl
  exact send_data_of_dumps_none d st h2 hne'

theorem send_data_drops_unencodable_record_witness :
    containsPyObj (PyVal.dict [("frame", PyVal.int 3),
      ("handle", PyVal.pyobj "socket")]) = true ∧
    (⟨[⟨0, true, []⟩], [], true⟩ : BridgeState).clients ≠ [] ∧
    send_data (PyVal.dict [("frame", PyVal.int 3), ("handle", PyVal.pyobj "socket")])
        ⟨[⟨0, true, []⟩], [], true⟩ =
      (⟨[⟨0, true, []⟩], [], true⟩, [Event.normalized, Event.encodeFailed]) :=
  ⟨by decide, by decide,
    send_data_drops_unencodable_record
      (PyVal.dict [("frame", PyVal.int 3), ("handle", PyVal.pyobj "socket")])
      ⟨[⟨0, true, []⟩], [], true⟩ (by decide) (by decide)⟩

/-- C4: `send_data` with an empty Registry takes the `if not self.clients:
return` fast path: it returns normally with the state unchanged and an empty
event trace — in particular no `Event.normalized` and no `Event.encoded`
event, i.e. neither normalization nor serialization of the record is
performed. -/
theorem send_data_empty_registry_noop (d : PyVal) (st : BridgeState)
    (h : st.clients = []) : send_data d st = (st, []) := by
  simp [send_data, h]

theorem send_data_empty_registry_noop_witness :
    (⟨[], [3], true⟩ : BridgeState).clients = [] ∧
    send_data (PyVal.nparray (NpArr.scalar 1)) ⟨[], [3], true⟩ =
      (⟨[], [3], true⟩, []) :=
  ⟨rfl, send_data_empty_registry_noop (PyVal.nparray (NpArr.scalar 1))
    ⟨[], [3], true⟩ rfl⟩

/-- C5: `close` is idempotent. Calling it twice produces no error (`close`
is a total function: every exception in the Python body is caught), the
Registry is empty after each call, the second call yields exactly the state
the first call produced, and the server socket is closed. Nothing here
requires `start` to have run: the theorem holds for every bridge state,
including one where `start` never completed. -/
theorem close_is_idempotent (st : BridgeState) :
    (close (close st).1).1 = (close st).1 ∧
    (close st).1.clients = [] ∧
    (close (close st).1).1.clients = [] ∧
    (close st).1.serverOpen = false := by
  simp [close]

/-- C6: on any record free of live-object leaves, normalization returns a
fully plain value (only numbers, strings, booleans, `None`, plain lists and
plain dicts — mappings and sequences rebuilt depth-first); and every
array-like numeric buffer leaf is converted exactly to its `tolist` image, a
plain nested numeric sequence which is lossless in values and shape
(`ofPlain` parses it back to the original buffer). -/
theorem convert_buffer_roundtrip (v : PyVal) (h : containsPyObj v = false) :
    isPlain (_convert_numpy_to_list v) = true ∧
    ∀ a : NpArr, _convert_numpy_to_list (PyVal.nparray a) = NpArr.tolist a ∧
      ofPlain (NpArr.tolist a) = some a :=
  ⟨convert_isPlain_of_no_pyobj v h, fun a => ⟨rfl, ofPlain_tolist a⟩⟩

theorem convert_buffer_roundtrip_witness :
    containsPyObj (PyVal.dict [("pose",
      PyVal.nparray (NpArr.arr [NpArr.arr [NpArr.scalar 1, NpArr.scalar 2]]))]) = false ∧
    (isPlain (_convert_numpy_to_list (PyVal.dict [("pose",
      PyVal.nparray (NpArr.arr [NpArr.arr [NpArr.scalar 1, NpArr.scalar 2]]))])) = true ∧
    ∀ a : NpArr, _convert_numpy_to_list (PyVal.nparray a) = NpArr.tolist a ∧
      ofPlain (NpArr.tolist a) = some a) :=
  ⟨by decide,
    convert_buffer_roundtrip (PyVal.dict [("pose",
      PyVal.nparray (NpArr.arr [NpArr.arr [NpArr.scalar 1, NpArr.scalar 2]]))])
      (by decide)⟩

/-- C7: if binding or listening fails, `start` logs the failure
(`Event.bindFailed`, the `BindError`-class report) and returns immediately:
the accept loop never runs (no `Event.bound`, `Event.accepted` or
`Event.acceptError` in the trace, whatever connections were pending), no
consumer is added (the state, in particular `clients`, is unchanged), and
the failure is terminal for this `start` call but does not crash the
process (`start` returns normally instead of propagating the exception). -/
theorem start_bind_failure_is_terminal (incoming : List (Option Client))
    (st : BridgeState) : start false incoming st = (st, [Event.bindFailed]) := rfl

/-- C10: the normalization `_convert_numpy_to_list` is the identity on every
already-plain value (numbers, strings, booleans, `None`, and nestings of
plain lists and dicts), and it is idempotent on every input: applying it to
its own output returns that output unchanged. -/
theorem convert_plain_identity_and_idempotent (v : PyVal) :
    (isPlain v = true → _convert_numpy_to_list v = v) ∧
    _convert_numpy_to_list (_convert_numpy_to_list v) = _convert_numpy_to_list v :=
  ⟨convert_of_isPlain v, convert_idem v⟩

theorem convert_plain_identity_and_idempotent_witness :
    isPlain (PyVal.dict [("a", PyVal.list [PyVal.int 1, PyVal.str "x",
      PyVal.bool true, PyVal.none])]) = true ∧
    _convert_numpy_to_list (PyVal.dict [("a", PyVal.list [PyVal.int 1,
      PyVal.str "x", PyVal.bool true, PyVal.none])]) =
      PyVal.dict [("a", PyVal.list [PyVal.int 1, PyVal.str "x",
        PyVal.bool true, PyVal.none])] ∧
    _convert_numpy_to_list (_convert_numpy_to_list (PyVal.dict [("a",
      PyVal.list [PyVal.int 1, PyVal.str "x", PyVal.bool true, PyVal.none])])) =
      _convert_numpy_to_list (PyVal.dict [("a", PyVal.list [PyVal.int 1,
        PyVal.str "x", PyVal.bool true, PyVal.none])]) :=
  ⟨by decide,
    (convert_plain_identity_and_idempotent (PyVal.dict [("a", PyVal.list
      [PyVal.int 1, PyVal.str "x", PyVal.bool true, PyVal.none])])).1 (by decide),
    (convert_plain_identity_and_idempotent (PyVal.dict [("a", PyVal.list
      [PyVal.int 1, PyVal.str "x", PyVal.bool true, PyVal.none])])).2⟩

/-- C2: evaluation of `send_data` at the failing input — a Registry with a
disconnected consumer (id 1) ahead of a connected one (id 0). When
`sendall` to consumer 1 raises `socket.error`, the handler's own warning
f-string calls `getpeername()` on that dead socket, which raises `OSError`;
an exception raised inside an `except` clause is not caught by its
siblings, so it unwinds: the returned state is unchanged — consumer 1 is
neither removed from the Registry (still in `clients`) nor closed (no
`Event.closedClient` in the trace) — consumer 0 never receives the record
(no `Event.sendOk 0`, its transcript stays empty), and the exception
escapes `send_data` to its caller (`Event.uncaughtException`). This
contradicts all three parts of the claim; the handler's own remove/close
body and the spec's isolate-and-continue policy show the claim is the
intent and the diagnostic `getpeername()` call the slip. -/
theorem send_data_consumer_failure_escapes :
    send_data (PyVal.int 5) ⟨[⟨1, false, []⟩, ⟨0, true, []⟩], [], true⟩ =
      (⟨[⟨1, false, []⟩, ⟨0, true, []⟩], [], true⟩,
        [Event.normalized, Event.encoded, Event.lockAcquire, Event.sendFail 1,
          Event.handlerError 1, Event.lockRelease, Event.uncaughtException]) := by
  decide

/-- C8 counterexample: with one connected consumer and the record `1`, the
`send_data` trace performs its socket write at lock depth 1, not at lock
depth 0 — i.e. the write to the consumer happens while `self.lock` is held —
and the whole call acquires the lock once, not twice, so removals are not
applied under a second lock acquisition. This refutes the claim that
per-consumer network I/O is performed outside the lock with removals under a
second acquisition. -/
theorem send_data_lock_held_during_write_counterexample :
    sendsAtDepth 0
      (send_data (PyVal.int 1) ⟨[⟨0, true, []⟩], [], true⟩).2 0 = false ∧
    countLockAcquires
      (send_data (PyVal.int 1) ⟨[⟨0, true, []⟩], [], true⟩).2 = 1 := by
  decide

/-- C8 amended: during every `send_data` call that reaches the write phase,
the member list is iterated over a copy (`for client in list(self.clients)`)
for safe removal during iteration, but all per-consumer network I/O and all
removals happen inside one single acquisition of the Registry lock: every
socket write event sits at lock depth 1 and the trace contains exactly one
`lockAcquire`. -/
theorem send_data_writes_under_single_lock (d : PyVal) (st : BridgeState)
    (s : String) (henc : dumps (_convert_numpy_to_list d) = Option.some s)
    (hne : st.clients.isEmpty = false) :
    sendsAtDepth 1 (send_data d st).2 0 = true ∧
    countLockAcquires (send_data d st).2 = 1 := by
  rw [send_data_of_dumps_some d st s henc hne]
  constructor
  · show sendsAtDepth 1 (Event.normalized :: Event.encoded :: Event.lockAcquire ::
      ((sendLoop (s ++ "\n") st.clients).2.1 ++ [Event.lockRelease] ++
        (if (sendLoop (s ++ "\n") st.clients).2.2 then
          [Event.uncaughtException] else []))) 0 = true
    simp only [sendsAtDepth]
    rw [sendsAtDepth_append, sendsAtDepth_append, sendLoop_sendsAtDepth,
      depthAfter_append, sendLoop_depthAfter]
    cases hb : (sendLoop (s ++ "\n") st.clients).2.2 <;> rfl
  · show countLockAcquires (Event.normalized :: Event.encoded :: Event.lockAcquire ::
      ((sendLoop (s ++ "\n") st.clients).2.1 ++ [Event.lockRelease] ++
        (if (sendLoop (s ++ "\n") st.clients).2.2 then
          [Event.uncaughtException] else []))) = 1
    have h := sendLoop_countLockAcquires (s ++ "\n") st.clients
    simp only [countLockAcquires] at h
    cases hb : (sendLoop (s ++ "\n") st.clients).2.2 <;>
      simp [countLockAcquires, List.countP_cons, List.countP_append, h]

theorem send_data_writes_under_single_lock_witness :
    dumps (_convert_numpy_to_list (PyVal.int 1)) = Option.some "1" ∧
    (⟨[⟨0, true, []⟩], [], true⟩ : BridgeState).clients.isEmpty = false ∧
    sendsAtDepth 1
      (send_data (PyVal.int 1) ⟨[⟨0, true, []⟩], [], true⟩).2 0 = true ∧
    countLockAcquires
      (send_data (PyVal.int 1) ⟨[⟨0, true, []⟩], [], true⟩).2 = 1 :=
  ⟨by decide, rfl,
    (send_data_writes_under_single_lock (PyVal.int 1)
      ⟨[⟨0, true, []⟩], [], true⟩ "1" (by decide) rfl).1,
    (send_data_writes_under_single_lock (PyVal.int 1)
      ⟨[⟨0, true, []⟩], [], true⟩ "1" (by decide) rfl).2⟩

/-- C9: every terminating execution of the lifecycle coordinator
`process_with_unity` — on all three termination paths: normal producer
completion, external interrupt (`KeyboardInterrupt`), and producer failure —
invokes `bridge.close()` exactly once on its way out and ends with the final
"finished" log line (it never exits without closing the bridge); every wait
on the producer thread after `close` is the bounded 5-second grace join; and
the non-fatal warning is reported exactly when the producer thread is still
alive at cleanup and does not terminate within the grace period, after which
the coordinator proceeds to the end regardless. -/
theorem process_with_unity_always_closes_bridge :
    ∀ (outcome : Outcome) (aliveAtCleanup exitsInGrace : Bool),
      (process_with_unity outcome aliveAtCleanup exitsInGrace).countP
        (fun e => e == LifeEvent.closeCalled) = 1 ∧
      (process_with_unity outcome aliveAtCleanup exitsInGrace).getLast? =
        some LifeEvent.finished ∧
      (process_with_unity outcome aliveAtCleanup exitsInGrace).all
        (fun e => match e with
          | LifeEvent.joinGrace n => n == 5
          | _ => true) = true ∧
      (LifeEvent.joinWarning ∈ process_with_unity outcome aliveAtCleanup exitsInGrace ↔
        (outcome ≠ Outcome.completed ∧ aliveAtCleanup = true ∧ exitsInGrace = false)) := by
  intro outcome a g
  cases outcome <;> cases a <;> cases g <;> exact ⟨by decide, by decide, by decide, by decide⟩
